import Mathlib

/-!
Verification development for the stasinetic pearl bot.

Shallow embedding of the core source files:
- src/triggerPearl.ts : pearl selection, action-block search, trigger sequence
- src/pearlDetect.ts  : pearl lifecycle (two variants, A and B), attribution,
  stability-based promotion, reconciliation
- src/state.ts        : the PearlRecord data model and registry

Positions are embedded as rational 3-vectors, timestamps as integers
(milliseconds).  The source compares Euclidean distances and speeds against
epsilons; those comparisons are embedded in squared form over the rationals,
and a bridging lemma proves the squared form equivalent to the square-root
form over the reals.
-/

namespace Stasinetic

/-- 3D coordinate with rational components (source: Vec3 in state.ts). -/
structure Vec3 where
  x : ℚ
  y : ℚ
  z : ℚ
deriving DecidableEq

/-- Modelled from the spec: squared Euclidean distance, the function distSq of
the missing file src/math.ts, used by pickPearlPosFor for nearest-record
selection ("nearest (by squared distance from the current actor position)"). -/
def distSq (a b : Vec3) : ℚ :=
  (a.x - b.x) * (a.x - b.x) + (a.y - b.y) * (a.y - b.y)
    + (a.z - b.z) * (a.z - b.z)

/-- Pearl lifecycle states (source: PearlStatus in state.ts). -/
inductive PearlStatus where
  | airborne
  | stasis
  | gone
  | unknown
deriving DecidableEq

/-- A tracked pearl record (source: PearlRecord in state.ts), together with the
runtime-only auxiliary fields the detector bolts on (lastRawAt, stableSince,
stablePos, missingSince).  The source stores an instantaneous speed in the
auxiliary field lastSpeed; it is write-only (never read by any decision), and
is embedded here as its square to stay inside the rationals. -/
structure PearlRecord where
  owner : String
  pos : Vec3
  createdAt : ℤ
  lastSeenAt : ℤ
  lastMoveAt : ℤ
  lastPos : Option Vec3
  entityId : Option ℕ
  dimension : Option String
  status : PearlStatus
  lastRawAt : Option ℤ
  lastSpeedSq : Option ℚ
  stableSince : Option ℤ
  stablePos : Option Vec3
  missingSince : Option ℤ
deriving DecidableEq

/-- The Registry: the pearl-id to PearlRecord mapping (state.pearls),
embedded as an association list in object-insertion order. -/
abbrev Registry := List (String × PearlRecord)

/-- JavaScript truthiness of an optional numeric field: undefined and 0 are
falsy.  The source guards the auxiliary timestamps with bare truthiness tests
(for example the stableSince test in tryPromoteToStasis). -/
def jsTruthy : Option ℤ → Bool
  | none => false
  | some v => v != 0

/-- Componentwise floor to block coordinates (source: snapToBlock). -/
def snapToBlock (p : Vec3) : Vec3 :=
  ⟨(⌊p.x⌋ : ℤ), (⌊p.y⌋ : ℤ), (⌊p.z⌋ : ℤ)⟩

/-! ## Tuning constants (variant A of pearlDetect.ts) -/

def MIN_AGE_MS : ℤ := 2500
def SETTLE_MS : ℤ := 600
def SPEED_EPS : ℚ := 15 / 100
def MOVE_EPS : ℚ := 15 / 100
def MISSING_GRACE_MS : ℤ := 5000

/-! ## Trigger sequencer (triggerPearl.ts) -/

/-- Choose the closest registered pearl for a player, by squared distance from
the bot (source: pickPearlPosFor).  The source filters the registry entries by
owner only and folds to the strictly smallest squared distance, first entry
winning ties; it does not consult the record status.  A missing bot entity
position yields null. -/
def pickBestStep (bp : Vec3) (best : Option (String × PearlRecord × ℚ))
    (kv : String × PearlRecord) : Option (String × PearlRecord × ℚ) :=
  let d := distSq bp kv.2.pos
  match best with
  | none => some (kv.1, kv.2, d)
  | some b => if d < b.2.2 then some (kv.1, kv.2, d) else some b

def pickPearlPosFor (botPos : Option Vec3) (pearls : Registry)
    (playerName : String) : Option (String × PearlRecord) :=
  match botPos with
  | none => none
  | some bp =>
    let owned := pearls.filter (fun kv => kv.2.owner = playerName)
    let best := owned.foldl (pickBestStep bp) none
    best.map (fun b => (b.1, b.2.1))

/-- The fixed action-block name set (source: ACTION_BLOCK_NAMES). -/
def ACTION_BLOCK_NAMES : List String :=
  ["lever", "oak_trapdoor", "iron_trapdoor", "stone_button",
   "polished_blackstone_button", "oak_button", "oak_pressure_plate",
   "stone_pressure_plate"]

/-- Action-block classifier: exact-name membership or suffix pattern
(source: isActionBlockName). -/
def isActionBlockName : Option String → Bool
  | none => false
  | some name =>
    ACTION_BLOCK_NAMES.contains name
    || name.endsWith "_button"
    || name.endsWith "_pressure_plate"
    || name.endsWith "_trapdoor"
    || name.endsWith "_door"
    || name.endsWith "_fence_gate"

/-- Integer block coordinates. -/
abbrev BlockPos := ℤ × ℤ × ℤ

/-- A found action block: its name and integer position. -/
structure ActionBlock where
  name : String
  pos : BlockPos
deriving DecidableEq

/-- Offsets -radius..radius in loop order (source: the dx/dy/dz loops of
findNearestActionBlock). -/
def cubeOffsets (radius : ℕ) : List ℤ :=
  (List.range (2 * radius + 1)).map (fun i => (i : ℤ) - (radius : ℤ))

/-- Exhaustive cube scan around the floored pearl position for the nearest
action block by squared offset distance, strict improvement so the first
minimum in loop order wins (source: findNearestActionBlock). -/
def findNearestActionBlock (blockAt : BlockPos → Option String)
    (pearlPos : Vec3) (radius : ℕ) : Option ActionBlock :=
  let base : BlockPos := ((⌊pearlPos.x⌋ : ℤ), (⌊pearlPos.y⌋ : ℤ), (⌊pearlPos.z⌋ : ℤ))
  let best := (cubeOffsets radius).foldl (fun acc dx =>
    (cubeOffsets radius).foldl (fun acc dy =>
      (cubeOffsets radius).foldl (fun acc dz =>
        let p : BlockPos := (base.1 + dx, base.2.1 + dy, base.2.2 + dz)
        match blockAt p with
        | none => acc
        | some bname =>
          if isActionBlockName (some bname) then
            let d2 := dx * dx + dy * dy + dz * dz
            match acc with
            | none => some (ActionBlock.mk bname p, d2)
            | some b => if d2 < b.2 then some (ActionBlock.mk bname p, d2) else some b
          else acc) acc) acc)
    (none : Option (ActionBlock × ℤ))
  best.map (fun b => b.1)

/-- Failure taxonomy of the trigger sequencer, one constructor per throw site
in triggerPearl (the thrown Error messages, in order: no pearl registered,
pathfinding not initialized, no action block, and any fault thrown by the
orient/wait/interact calls). -/
inductive TriggerError where
  | notFound
  | noPathfinder
  | noActionBlock
  | interactFailure
deriving DecidableEq

/-- Successful trigger result (source: the return value of triggerPearl). -/
structure TriggerResult where
  pearlId : String
  actionBlock : String
  actionPos : BlockPos
deriving DecidableEq

/-- The ambient world as the trigger sequencer observes it: the bot position,
pathfinder presence, block lookup, the outcomes of the two best-effort
navigation attempts, and whether the orient/interact sequence faults. -/
structure World where
  botPos : Option Vec3
  hasPathfinder : Bool
  blockAt : BlockPos → Option String
  nav3dOk : Bool
  navXZOk : Bool
  interactOk : Bool

/-- The trigger sequence (source: triggerPearl).  Selection, pathfinder check
and block search happen in source order; navigation failures are swallowed by
the internal try/catch cascade (3D, then XZ, then proceed anyway) and never
produce a failure; a fault in the orient/wait/interact sequence propagates.
The registry is threaded through and returned: the source never mutates
state.pearls anywhere in this function. -/
def triggerPearl (w : World) (pearls : Registry) (playerName : String)
    (actionRadius : ℕ) : Except TriggerError TriggerResult × Registry :=
  match pickPearlPosFor w.botPos pearls playerName with
  | none => (Except.error TriggerError.notFound, pearls)
  | some (pearlId, pearl) =>
    if ¬ w.hasPathfinder then (Except.error TriggerError.noPathfinder, pearls)
    else
      match findNearestActionBlock w.blockAt pearl.pos actionRadius with
      | none => (Except.error TriggerError.noActionBlock, pearls)
      | some actionBlock =>
        -- navigation outcomes (w.nav3dOk, w.navXZOk) are intentionally
        -- unobservable: the source recovers from both failures locally
        if w.interactOk then
          (Except.ok ⟨pearlId, actionBlock.name, actionBlock.pos⟩, pearls)
        else
          (Except.error TriggerError.interactFailure, pearls)

/-! ## Promotion state machine and entity watcher (pearlDetect.ts, variant A) -/

/-- The duration denominator of a motion sample: dtMs = max 1 (now - lastRawAt),
converted to seconds as a rational (source: the dtMs / dt computation of the
entityMoved handler).  A missing lastRawAt defaults to now. -/
def sampleDt (rec : PearlRecord) (now : ℤ) : ℚ :=
  ((max 1 (now - (rec.lastRawAt.getD now)) : ℤ) : ℚ) / 1000

/-- A motion sample disqualifies stability when displacement exceeds MOVE_EPS
or instantaneous speed exceeds SPEED_EPS (source: the moved || speed test of
the entityMoved handler).  The source compares the Euclidean distance d and
the speed d / dt; this embedding compares their squares, which lemma
disqualifying_iff_sqrt proves equivalent. -/
def disqualifyingSample (rec : PearlRecord) (now : ℤ) (newPos : Vec3) : Prop :=
  distSq rec.pos newPos > MOVE_EPS * MOVE_EPS
  ∨ distSq rec.pos newPos
      > SPEED_EPS * SPEED_EPS * (sampleDt rec now * sampleDt rec now)

instance (rec : PearlRecord) (now : ℤ) (newPos : Vec3) :
    Decidable (disqualifyingSample rec now newPos) := by
  unfold disqualifyingSample
  infer_instance

/-- Promotion guard and effect (source: tryPromoteToStasis).  Requires
status airborne, age at least MIN_AGE_MS, a truthy stableSince, and a stable
window of at least SETTLE_MS; on success snaps pos to the floor of the
remembered stable position (falling back to the latest raw pos when stablePos
is unset), stores the raw position in lastPos, and sets status stasis.
Returns the updated record and whether promotion happened. -/
def tryPromoteToStasis (rec : PearlRecord) (now : ℤ) : PearlRecord × Bool :=
  if rec.status ≠ PearlStatus.airborne then (rec, false)
  else if now - rec.createdAt < MIN_AGE_MS then (rec, false)
  else if ¬ jsTruthy rec.stableSince then (rec, false)
  else
    match rec.stableSince with
    | none => (rec, false)
    | some s =>
      if now - s < SETTLE_MS then (rec, false)
      else
        let raw := rec.stablePos.getD rec.pos
        ({ rec with lastPos := some raw, pos := snapToBlock raw,
                    status := PearlStatus.stasis }, true)

/-- The entityMoved handler body for a tracked pearl (source: the entityMoved
listener, variant A).  Refreshes lastSeenAt; for a stasis record only lastPos
is updated; otherwise the raw sample feeds the stability tracker: a
disqualifying sample resets the stability timer and clears the remembered
stable position, a qualifying sample starts the timer when not already
running (JavaScript truthiness) and updates the stable position; then a
promotion attempt runs and the missing timer is cleared. -/
def entityMovedUpdate (rec : PearlRecord) (now : ℤ) (newPos : Vec3) :
    PearlRecord × Bool :=
  if rec.status = PearlStatus.stasis then
    ({ rec with lastSeenAt := now, lastPos := some newPos,
                missingSince := none }, false)
  else
    let d2 := distSq rec.pos newPos
    let dtq := sampleDt rec now
    let rec1 := { rec with
      lastSeenAt := now, pos := newPos,
      lastSpeedSq := some (d2 / (dtq * dtq)), lastRawAt := some now }
    let rec2 :=
      if disqualifyingSample rec now newPos then
        { rec1 with lastMoveAt := now, stableSince := none, stablePos := none }
      else
        { rec1 with
          stableSince := if jsTruthy rec1.stableSince then rec1.stableSince
                         else some now,
          stablePos := some newPos }
    let pr := tryPromoteToStasis rec2 now
    ({ pr.1 with missingSince := none }, pr.2)

/-- One record of the periodic promotion pass (source: the second loop of the
reconciliation interval, variant A): airborne records get a promotion
attempt. -/
def intervalPromote (rec : PearlRecord) (now : ℤ) : PearlRecord × Bool :=
  if rec.status = PearlStatus.airborne then tryPromoteToStasis rec now
  else (rec, false)

/-- The present-entity refresh of the reconciliation sync pass (source: the
ent-present branch of the reconciliation interval, variant A). -/
def syncRefresh (rec : PearlRecord) (now : ℤ) (raw : Vec3) : PearlRecord :=
  if rec.status = PearlStatus.stasis then
    { rec with lastSeenAt := now, lastPos := some raw, missingSince := none }
  else
    { rec with lastSeenAt := now, pos := raw, missingSince := none }

/-- One record of the reconciliation sync pass (source: the first loop of the
reconciliation interval, variant A).  Records without an entityId are skipped;
a live pearl entity refreshes the record and clears the missing timer; an
absent entity starts the missing timer (JavaScript truthiness) or, once the
grace period has elapsed, deletes the record (result none). -/
def reconcileRec (rec : PearlRecord) (now : ℤ) (live : Option Vec3) :
    Option PearlRecord :=
  match rec.entityId with
  | none => some rec
  | some _ =>
    match live with
    | some raw => some (syncRefresh rec now raw)
    | none =>
      if ¬ jsTruthy rec.missingSince then
        some { rec with missingSince := some now }
      else
        match rec.missingSince with
        | none => some { rec with missingSince := some now }
        | some m =>
          if now - m ≥ MISSING_GRACE_MS then none
          else some rec

/-- The entityGone handler of variant A (source: the entityGone listener of
the first pearlDetect.ts variant): the tracked record is removed from the
registry unconditionally, with no promotion attempt. -/
def entityGoneA (pearls : Registry) (key : String) : Registry :=
  List.filter (fun kv => kv.1 ≠ key) pearls

/-- The entityGone handler of variant B (source: the entityGone listener of
the second pearlDetect.ts variant), per record: a stasis record is kept with
its entity link dropped; otherwise a last-moment promotion attempt runs; when
it succeeds the record is kept as stasis with the link dropped; otherwise the
record is marked gone with the link dropped — and retained in the registry. -/
def entityGoneB (rec : PearlRecord) (now : ℤ) : PearlRecord :=
  if rec.status = PearlStatus.stasis then
    { rec with lastSeenAt := now, entityId := none }
  else
    let r := (tryPromoteToStasis rec now).1
    if r.status = PearlStatus.stasis then
      { r with entityId := none }
    else
      { r with status := PearlStatus.gone, lastSeenAt := now, entityId := none }

/-- Registry-level wrapper for the variant B entityGone handler: the keyed
record is updated in place, never removed. -/
def entityGoneBReg (pearls : Registry) (key : String) (now : ℤ) : Registry :=
  List.map (fun kv => if kv.1 = key then (kv.1, entityGoneB kv.2 now) else kv)
    pearls

/-- A freshly created record (source: the record literal of
upsertPearlFromEntity, variant A): airborne, all auxiliary tracking fields
unset except lastRawAt. -/
def newPearlRecord (owner : String) (p : Vec3) (now : ℤ) (eId : ℕ)
    (dim : Option String) : PearlRecord :=
  { owner := owner, pos := p, createdAt := now, lastSeenAt := now,
    lastMoveAt := now, lastPos := none, entityId := some eId,
    dimension := dim, status := PearlStatus.airborne,
    lastRawAt := some now, lastSpeedSq := none, stableSince := none,
    stablePos := none, missingSince := none }

/-- The delayed re-attribution timeout body (source: the setTimeout callback
of upsertPearlFromEntity, variant A): a record whose owner is already
resolved is left untouched; an unknown owner is upgraded only to a
non-unknown candidate. -/
def delayedRescore (rec : PearlRecord) (better : String) : PearlRecord :=
  if rec.owner ≠ "unknown" then rec
  else if better ≠ "unknown" then { rec with owner := better }
  else rec

/-! ## Per-record event traces

The asynchronous inputs that can touch one record's stability tracking:
motion samples (entityMoved), promotion checks (the periodic promotion pass),
and sync refreshes (the present-entity branch of the reconciliation pass). -/

inductive PearlEvent where
  | move (t : ℤ) (p : Vec3)
  | check (t : ℤ)
  | sync (t : ℤ) (p : Vec3)

def eventTime : PearlEvent → ℤ
  | PearlEvent.move t _ => t
  | PearlEvent.check t => t
  | PearlEvent.sync t _ => t

def syncStep (rec : PearlRecord) (t : ℤ) (p : Vec3) : PearlRecord :=
  match rec.entityId with
  | none => rec
  | some _ => syncRefresh rec t p

def stepEvent (rec : PearlRecord) : PearlEvent → PearlRecord
  | PearlEvent.move t p => (entityMovedUpdate rec t p).1
  | PearlEvent.check t => (intervalPromote rec t).1
  | PearlEvent.sync t p => syncStep rec t p

def runEvents (rec : PearlRecord) (evs : List PearlEvent) : PearlRecord :=
  evs.foldl stepEvent rec

/-! ## Attribution scorer (pearlDetect.ts, variant A: pickOwnerForPearl)

The scorer computes with trigonometry and square roots, so this part of the
embedding lives over the reals and is necessarily noncomputable; the claim
theorems about it are stated without reliance on evaluation. -/

def SWING_WINDOW_MS : ℝ := 300
def CANDIDATE_RADIUS : ℝ := 14

/-- Real 3-vector for the scorer. -/
structure Vec3R where
  x : ℝ
  y : ℝ
  z : ℝ

/-- Source: clamp01. -/
noncomputable def clamp01 (n : ℝ) : ℝ := max 0 (min 1 n)

/-- Source: lookDir — the view direction derived from yaw and pitch. -/
noncomputable def lookDir (yaw pitch : ℝ) : Vec3R :=
  ⟨-Real.sin yaw * Real.cos pitch, Real.sin pitch,
    -Real.cos yaw * Real.cos pitch⟩

/-- Source: dot. -/
noncomputable def dotV (a b : Vec3R) : ℝ := a.x * b.x + a.y * b.y + a.z * b.z

/-- Source: norm — normalization with the JavaScript zero-magnitude guard
(a zero magnitude is replaced by 1). -/
noncomputable def normV (v : Vec3R) : Vec3R :=
  let m0 := Real.sqrt (v.x * v.x + v.y * v.y + v.z * v.z)
  let m := if m0 = 0 then 1 else m0
  ⟨v.x / m, v.y / m, v.z / m⟩

/-- Source: vecTo. -/
noncomputable def vecTo (a b : Vec3R) : Vec3R := ⟨b.x - a.x, b.y - a.y, b.z - a.z⟩

/-- Squared distance between an entity position and the pearl position, as
computed inline by pickOwnerForPearl. -/
noncomputable def playerDistSq (entPos pearlPos : Vec3R) : ℝ :=
  (entPos.x - pearlPos.x) ^ 2 + (entPos.y - pearlPos.y) ^ 2
    + (entPos.z - pearlPos.z) ^ 2

/-- The live entity data of one connected player as the scorer reads it
(position, yaw, pitch, and the entity id the swing map is keyed by). -/
structure EntObs where
  id : ℕ
  pos : Vec3R
  yaw : ℝ
  pitch : ℝ

/-- One entry of bot.players: the username, and the player entity when
loaded. -/
structure PlayerObs where
  username : String
  ent : Option EntObs

/-- The candidate score (source: the score computation of pickOwnerForPearl):
4 times swing recency plus 1.5 times facing plus closeness. -/
noncomputable def scoreOf (pearlPos : Vec3R) (now : ℝ) (swingAt : ℝ)
    (e : EntObs) : ℝ :=
  let age := now - swingAt
  let swingRecency := clamp01 (1 - age / SWING_WINDOW_MS)
  let dir := lookDir e.yaw e.pitch
  let toPearl := normV (vecTo e.pos pearlPos)
  let facing := clamp01 ((dotV (normV dir) toPearl + 1) / 2)
  let closeness := 1 / (1 + playerDistSq e.pos pearlPos)
  swingRecency * 4 + facing * 1.5 + closeness * 1

/-- A player qualifies as an attribution candidate: a loaded entity within
CANDIDATE_RADIUS of the pearl whose last recorded swing is within
SWING_WINDOW_MS of the decision time. -/
def Qualifies (pearlPos : Vec3R) (now : ℝ) (swings : ℕ → Option ℝ)
    (p : PlayerObs) : Prop :=
  ∃ e, p.ent = some e
    ∧ playerDistSq e.pos pearlPos ≤ CANDIDATE_RADIUS * CANDIDATE_RADIUS
    ∧ ∃ t, swings e.id = some t ∧ now - t ≤ SWING_WINDOW_MS

open Classical in
/-- The candidate loop of pickOwnerForPearl: best score so far and its
username, strict improvement only (the source initializes bestScore to
negative infinity, embedded as the empty accumulator). -/
noncomputable def pickAux (pearlPos : Vec3R) (now : ℝ)
    (swings : ℕ → Option ℝ) : List PlayerObs → Option (ℝ × String) →
    Option (ℝ × String)
  | [], acc => acc
  | p :: ps, acc =>
    match p.ent with
    | none => pickAux pearlPos now swings ps acc
    | some e =>
      if playerDistSq e.pos pearlPos > CANDIDATE_RADIUS * CANDIDATE_RADIUS then
        pickAux pearlPos now swings ps acc
      else
        match swings e.id with
        | none => pickAux pearlPos now swings ps acc
        | some t =>
          if now - t > SWING_WINDOW_MS then pickAux pearlPos now swings ps acc
          else
            let s := scoreOf pearlPos now t e
            match acc with
            | none => pickAux pearlPos now swings ps (some (s, p.username))
            | some (b, u) =>
              if s > b then pickAux pearlPos now swings ps (some (s, p.username))
              else pickAux pearlPos now swings ps (some (b, u))

/-- Source: pickOwnerForPearl — the best-scoring candidate's username, or
"unknown" when no candidate qualifies. -/
noncomputable def pickOwnerForPearl (pearlPos : Vec3R) (now : ℝ)
    (swings : ℕ → Option ℝ) (players : List PlayerObs) : String :=
  match pickAux pearlPos now swings players none with
  | none => "unknown"
  | some (_, u) => u

/-! ## Helper lemmas: the nearest-pearl fold -/

lemma pickBestStep_none_eq (bp : Vec3) (kv : String × PearlRecord) :
    pickBestStep bp none kv = some (kv.1, kv.2, distSq bp kv.2.pos) := rfl

lemma pickBestStep_some_eq (bp : Vec3) (b : String × PearlRecord × ℚ)
    (kv : String × PearlRecord) :
    pickBestStep bp (some b) kv =
      if distSq bp kv.2.pos < b.2.2 then some (kv.1, kv.2, distSq bp kv.2.pos)
      else some b := rfl

lemma pickBestStep_ne_none (bp : Vec3) (acc : Option (String × PearlRecord × ℚ))
    (kv : String × PearlRecord) : pickBestStep bp acc kv ≠ none := by
  cases acc with
  | none => simp [pickBestStep_none_eq]
  | some b =>
    rw [pickBestStep_some_eq]
    split <;> simp

lemma pickBest_foldl_eq_none (bp : Vec3) (l : List (String × PearlRecord)) :
    ∀ acc, l.foldl (pickBestStep bp) acc = none ↔ acc = none ∧ l = [] := by
  induction l with
  | nil => intro acc; simp
  | cons kv l ih =>
    intro acc
    simp only [List.foldl_cons]
    rw [ih]
    constructor
    · rintro ⟨h1, -⟩
      exact absurd h1 (pickBestStep_ne_none bp acc kv)
    · rintro ⟨-, h2⟩
      exact absurd h2 (by simp)

lemma pickBest_foldl_spec (bp : Vec3) (l : List (String × PearlRecord)) :
    ∀ acc id rec d, l.foldl (pickBestStep bp) acc = some (id, rec, d) →
      (acc = some (id, rec, d) ∨ ((id, rec) ∈ l ∧ d = distSq bp rec.pos))
      ∧ (∀ kv ∈ l, d ≤ distSq bp kv.2.pos)
      ∧ (∀ b, acc = some b → d ≤ b.2.2) := by
  induction l with
  | nil =>
    intro acc id rec d h
    simp only [List.foldl_nil] at h
    refine ⟨Or.inl h, by simp, fun b hb => ?_⟩
    rw [hb] at h
    cases h
    exact le_refl _
  | cons kv l ih =>
    intro acc id rec d h
    simp only [List.foldl_cons] at h
    cases acc with
    | none =>
      rw [pickBestStep_none_eq] at h
      obtain ⟨hprov, hmin, hacc⟩ := ih _ id rec d h
      refine ⟨?_, ?_, by simp⟩
      · rcases hprov with heq | hmem
        · cases heq
          exact Or.inr ⟨List.mem_cons_self _ _, rfl⟩
        · exact Or.inr ⟨List.mem_cons_of_mem _ hmem.1, hmem.2⟩
      · intro kv' hkv'
        rcases List.mem_cons.mp hkv' with heq | hmem
        · subst heq
          exact hacc _ rfl
        · exact hmin kv' hmem
    | some b =>
      rw [pickBestStep_some_eq] at h
      by_cases hlt : distSq bp kv.2.pos < b.2.2
      · rw [if_pos hlt] at h
        obtain ⟨hprov, hmin, hacc⟩ := ih _ id rec d h
        refine ⟨?_, ?_, ?_⟩
        · rcases hprov with heq | hmem
          · cases heq
            exact Or.inr ⟨List.mem_cons_self _ _, rfl⟩
          · exact Or.inr ⟨List.mem_cons_of_mem _ hmem.1, hmem.2⟩
        · intro kv' hkv'
          rcases List.mem_cons.mp hkv' with heq | hmem
          · subst heq
            exact hacc _ rfl
          · exact hmin kv' hmem
        · intro b' hb'
          cases hb'
          exact le_of_lt (lt_of_le_of_lt (hacc _ rfl) hlt)
      · rw [if_neg hlt] at h
        obtain ⟨hprov, hmin, hacc⟩ := ih _ id rec d h
        refine ⟨?_, ?_, ?_⟩
        · rcases hprov with heq | hmem
          · exact Or.inl heq
          · exact Or.inr ⟨List.mem_cons_of_mem _ hmem.1, hmem.2⟩
        · intro kv' hkv'
          rcases List.mem_cons.mp hkv' with heq | hmem
          · subst heq
            exact le_trans (hacc _ rfl) (le_of_not_lt hlt)
          · exact hmin kv' hmem
        · intro b' hb'
          cases hb'
          exact hacc _ rfl


/-! ## C1: trigger pearl selection -/

/-- Concrete airborne record owned by player P, for the C1 counterexample. -/
def cxAirborneRec : PearlRecord :=
  { owner := "P", pos := ⟨1, 0, 0⟩, createdAt := 0, lastSeenAt := 0,
    lastMoveAt := 0, lastPos := none, entityId := none, dimension := none,
    status := PearlStatus.airborne, lastRawAt := none, lastSpeedSq := none,
    stableSince := none, stablePos := none, missingSince := none }

/-- World with a lever adjacent to the counterexample pearl position. -/
def cxWorld : World :=
  { botPos := some ⟨0, 0, 0⟩, hasPathfinder := true,
    blockAt := fun p => if p = ((1 : ℤ), (0 : ℤ), (0 : ℤ)) then some "lever" else none,
    nav3dOk := true, navXZOk := true, interactOk := true }

/-- C1 counterexample: the selection step of trigger filters the registry by
owner only, so a record whose status is airborne (not stasis) is selected,
and the full trigger sequence consumes it; the claim that a non-stasis record
is never selected is false on the code. -/
theorem C1_cx_selects_airborne :
    pickPearlPosFor (some ⟨0, 0, 0⟩) [("k1", cxAirborneRec)] "P"
      = some ("k1", cxAirborneRec)
    ∧ cxAirborneRec.status ≠ PearlStatus.stasis
    ∧ (triggerPearl cxWorld [("k1", cxAirborneRec)] "P" 1).1
        = Except.ok ⟨"k1", "lever", ((1 : ℤ), (0 : ℤ), (0 : ℤ))⟩ := by
  refine ⟨rfl, by decide, rfl⟩

/-- C1 (amended): pickPearlPosFor selects, among all records owned by
playerName regardless of status, the one nearest the actor by squared
distance (first entry winning ties), and returns none — trigger then fails
with NotFound — exactly when the player owns no record at all. -/
theorem C1_pick_nearest_owned (bp : Vec3) (pearls : Registry) (name : String) :
    (pickPearlPosFor (some bp) pearls name = none
      ↔ ∀ kv ∈ pearls, kv.2.owner ≠ name)
    ∧ (∀ id rec, pickPearlPosFor (some bp) pearls name = some (id, rec) →
        rec.owner = name ∧ (id, rec) ∈ pearls ∧
        ∀ kv ∈ pearls, kv.2.owner = name →
          distSq bp rec.pos ≤ distSq bp kv.2.pos) := by
  constructor
  · unfold pickPearlPosFor
    simp only [Option.map_eq_none']
    rw [pickBest_foldl_eq_none]
    simp [List.filter_eq_nil_iff]
  · intro id rec h
    unfold pickPearlPosFor at h
    simp only [Option.map_eq_some'] at h
    obtain ⟨⟨id', rec', d⟩, hfold, heq⟩ := h
    cases heq
    obtain ⟨hprov, hmin, -⟩ :=
      pickBest_foldl_spec bp (pearls.filter (fun kv => kv.2.owner = name))
        none id' rec' d hfold
    rcases hprov with hcontra | ⟨hmem, hd⟩
    · cases hcontra
    · have hmem' := List.mem_filter.mp hmem
      refine ⟨by simpa using hmem'.2, hmem'.1, ?_⟩
      intro kv hkv hown
      have : kv ∈ pearls.filter (fun kv => kv.2.owner = name) :=
        List.mem_filter.mpr ⟨hkv, by simpa using hown⟩
      have := hmin kv this
      rw [hd] at this
      exact this

/-- Concrete record farther from the actor, for the C1 witness. -/
def cxFarRec : PearlRecord :=
  { cxAirborneRec with pos := ⟨5, 0, 0⟩, status := PearlStatus.stasis }

/-- Witness for C1_pick_nearest_owned at a concrete two-pearl registry. -/
theorem C1_pick_nearest_owned_witness :
    cxAirborneRec.owner = "P"
    ∧ ("k1", cxAirborneRec) ∈ ([("k1", cxAirborneRec), ("k2", cxFarRec)] : Registry)
    ∧ distSq ⟨0, 0, 0⟩ cxAirborneRec.pos ≤ distSq ⟨0, 0, 0⟩ cxFarRec.pos := by
  have h := (C1_pick_nearest_owned ⟨0, 0, 0⟩
    [("k1", cxAirborneRec), ("k2", cxFarRec)] "P").2 "k1" cxAirborneRec
    (by norm_num [pickPearlPosFor, pickBestStep, distSq, cxAirborneRec, cxFarRec])
  exact ⟨h.1, h.2.1, h.2.2 ("k2", cxFarRec) (by simp) rfl⟩

/-! ## C2 and C8: registry behavior of the trigger sequence -/

/-- The trigger sequence never writes the registry: every exit path, success
or failure, returns it unchanged (there is no delete of state.pearls anywhere
in triggerPearl). -/
lemma triggerPearl_snd (w : World) (reg : Registry) (name : String)
    (radius : ℕ) : (triggerPearl w reg name radius).2 = reg := by
  unfold triggerPearl
  split
  · rfl
  · split
    · rfl
    · split
      · rfl
      · split <;> rfl

/-- Concrete stasis record owned by P, at the lever-adjacent position. -/
def cxStasisRec : PearlRecord :=
  { cxAirborneRec with status := PearlStatus.stasis }

/-- C2 counterexample: a successful trigger call does not delete the selected
record — the registry after the call still holds it, and an immediately
subsequent trigger call for the same player succeeds again instead of
failing with NotFound. -/
theorem C2_cx_record_not_deleted :
    (triggerPearl cxWorld [("k1", cxStasisRec)] "P" 1).1
      = Except.ok ⟨"k1", "lever", ((1 : ℤ), (0 : ℤ), (0 : ℤ))⟩
    ∧ (triggerPearl cxWorld [("k1", cxStasisRec)] "P" 1).2
      = [("k1", cxStasisRec)]
    ∧ (triggerPearl cxWorld
        ((triggerPearl cxWorld [("k1", cxStasisRec)] "P" 1).2) "P" 1).1
      = Except.ok ⟨"k1", "lever", ((1 : ℤ), (0 : ℤ), (0 : ℤ))⟩ :=
  ⟨rfl, rfl, rfl⟩

/-- C2 (amended): a trigger call, successful or not, leaves the Registry
unchanged — the consumed record is not deleted by the trigger sequence
itself — so repeating the call against the returned registry reproduces the
same outcome rather than failing with NotFound. -/
theorem C2_trigger_leaves_registry (w : World) (reg : Registry) (name : String)
    (radius : ℕ) :
    (triggerPearl w reg name radius).2 = reg
    ∧ triggerPearl w ((triggerPearl w reg name radius).2) name radius
        = triggerPearl w reg name radius := by
  refine ⟨triggerPearl_snd w reg name radius, ?_⟩
  rw [triggerPearl_snd]

/-- C8: whenever the trigger sequence fails after pearl selection, the
failure is propagated to the caller as an error and the Registry is unchanged
by the call; in particular a missing action block yields the NoActionBlock
failure and a fault in the orient/interact sequence yields the interaction
failure, with the selected record left intact.  (Navigation faults are
recovered internally by the degrade-then-proceed cascade and never
constitute a failure of the call.) -/
theorem C8_failure_propagation (w : World) (reg : Registry) (name : String)
    (radius : ℕ) :
    (∀ e, (triggerPearl w reg name radius).1 = Except.error e →
      (triggerPearl w reg name radius).2 = reg)
    ∧ (∀ id rec, pickPearlPosFor w.botPos reg name = some (id, rec) →
        w.hasPathfinder = true →
        findNearestActionBlock w.blockAt rec.pos radius = none →
        (triggerPearl w reg name radius).1
          = Except.error TriggerError.noActionBlock)
    ∧ (∀ id rec blk, pickPearlPosFor w.botPos reg name = some (id, rec) →
        w.hasPathfinder = true →
        findNearestActionBlock w.blockAt rec.pos radius = some blk →
        w.interactOk = false →
        (triggerPearl w reg name radius).1
          = Except.error TriggerError.interactFailure) := by
  refine ⟨fun e _ => triggerPearl_snd w reg name radius, ?_, ?_⟩
  · intro id rec hpick hpf hfind
    unfold triggerPearl
    rw [hpick]
    simp [hpf, hfind]
  · intro id rec blk hpick hpf hfind hint
    unfold triggerPearl
    rw [hpick]
    simp [hpf, hfind, hint]

/-- World with no blocks at all, for the C8 witness. -/
def cxWorldNoBlock : World :=
  { cxWorld with blockAt := fun _ => none }

/-- Witness for C8_failure_propagation: with no action block near the stasis
record the call fails with NoActionBlock. -/
theorem C8_failure_propagation_witness :
    (triggerPearl cxWorldNoBlock [("k1", cxStasisRec)] "P" 1).1
      = Except.error TriggerError.noActionBlock :=
  (C8_failure_propagation cxWorldNoBlock [("k1", cxStasisRec)] "P" 1).2.1
    "k1" cxStasisRec rfl rfl rfl

/-! ## C9: promotion snaps the remembered stable position -/

/-- C9: when promotion fires and a stable position is remembered, the new pos
is the componentwise floor of that remembered stable position — not of the
latest raw sample — and lastPos retains the raw unsnapped stable position. -/
theorem C9_promote_uses_stablePos (rec : PearlRecord) (now : ℤ) (sp : Vec3)
    (hsp : rec.stablePos = some sp) :
    ∀ r, tryPromoteToStasis rec now = (r, true) →
      r.pos = snapToBlock sp ∧ r.lastPos = some sp := by
  intro r h
  unfold tryPromoteToStasis at h
  split at h
  · simp at h
  · split at h
    · simp at h
    · split at h
      · simp at h
      · split at h
        · simp at h
        · split at h
          · simp at h
          · rw [Prod.mk.injEq] at h
            obtain ⟨hr, -⟩ := h
            subst hr
            rw [hsp]
            exact ⟨rfl, rfl⟩

/-- Concrete promotable record: airborne, old enough, stable long enough,
with a remembered stable position different from the latest raw pos. -/
def cxPromotableRec : PearlRecord :=
  { cxAirborneRec with
    pos := ⟨9, 9, 9⟩, createdAt := 0,
    stableSince := some 1000, stablePos := some ⟨2, 3, 5⟩ }

/-- Witness for C9_promote_uses_stablePos at a concrete promotable record. -/
theorem C9_promote_uses_stablePos_witness :
    ((tryPromoteToStasis cxPromotableRec 5000).1).pos = snapToBlock ⟨2, 3, 5⟩
    ∧ ((tryPromoteToStasis cxPromotableRec 5000).1).lastPos = some ⟨2, 3, 5⟩ :=
  C9_promote_uses_stablePos cxPromotableRec 5000 ⟨2, 3, 5⟩ rfl
    ((tryPromoteToStasis cxPromotableRec 5000).1) rfl

/-! ## C6: owner monotonicity -/

lemma tryPromote_fst_owner (rec : PearlRecord) (now : ℤ) :
    ((tryPromoteToStasis rec now).1).owner = rec.owner := by
  unfold tryPromoteToStasis
  split
  · rfl
  · split
    · rfl
    · split
      · rfl
      · split
        · rfl
        · split <;> rfl

lemma entityMoved_fst_owner (rec : PearlRecord) (now : ℤ) (p : Vec3) :
    ((entityMovedUpdate rec now p).1).owner = rec.owner := by
  unfold entityMovedUpdate
  split
  · rfl
  · dsimp only
    rw [tryPromote_fst_owner]
    split <;> rfl

lemma intervalPromote_fst_owner (rec : PearlRecord) (now : ℤ) :
    ((intervalPromote rec now).1).owner = rec.owner := by
  unfold intervalPromote
  split
  · exact tryPromote_fst_owner rec now
  · rfl

lemma reconcile_owner (rec : PearlRecord) (now : ℤ) (live : Option Vec3) :
    ∀ r', reconcileRec rec now live = some r' → r'.owner = rec.owner := by
  intro r' h
  unfold reconcileRec at h
  split at h
  · cases h
    rfl
  · split at h
    · cases h
      unfold syncRefresh
      split <;> rfl
    · split at h
      · cases h
        rfl
      · split at h
        · cases h
          rfl
        · split at h
          · cases h
          · cases h
            rfl

lemma goneB_owner (rec : PearlRecord) (now : ℤ) :
    (entityGoneB rec now).owner = rec.owner := by
  unfold entityGoneB
  split
  · rfl
  · dsimp only
    split
    · exact tryPromote_fst_owner rec now
    · exact tryPromote_fst_owner rec now

lemma stepEvent_owner (rec : PearlRecord) (ev : PearlEvent) :
    (stepEvent rec ev).owner = rec.owner := by
  cases ev with
  | move t p => exact entityMoved_fst_owner rec t p
  | check t => exact intervalPromote_fst_owner rec t
  | sync t p =>
    show (syncStep rec t p).owner = rec.owner
    unfold syncStep
    split
    · rfl
    · unfold syncRefresh
      split <;> rfl

lemma runEvents_owner (rec : PearlRecord) (evs : List PearlEvent) :
    (runEvents rec evs).owner = rec.owner := by
  induction evs generalizing rec with
  | nil => rfl
  | cons e es ih =>
    unfold runEvents at ih ⊢
    simp only [List.foldl_cons]
    rw [ih (stepEvent rec e), stepEvent_owner]

/-- C6: the owner field is monotonic.  The delayed re-score leaves a resolved
owner untouched, upgrades an unknown owner only to a non-unknown name, and
never writes back "unknown"; every other record operation (promotion, the
move handler, the periodic promotion pass, reconciliation, the variant B
gone handler, and any event trace) preserves the owner unchanged. -/
theorem C6_owner_monotonic (rec : PearlRecord) (better : String) (now : ℤ)
    (newPos : Vec3) (live : Option Vec3) (evs : List PearlEvent) :
    (rec.owner ≠ "unknown" → delayedRescore rec better = rec)
    ∧ ((delayedRescore rec better).owner = rec.owner
        ∨ (rec.owner = "unknown" ∧ (delayedRescore rec better).owner = better
            ∧ better ≠ "unknown"))
    ∧ ((delayedRescore rec better).owner = "unknown" → rec.owner = "unknown")
    ∧ ((tryPromoteToStasis rec now).1).owner = rec.owner
    ∧ ((entityMovedUpdate rec now newPos).1).owner = rec.owner
    ∧ ((intervalPromote rec now).1).owner = rec.owner
    ∧ (∀ r', reconcileRec rec now live = some r' → r'.owner = rec.owner)
    ∧ (entityGoneB rec now).owner = rec.owner
    ∧ (runEvents rec evs).owner = rec.owner := by
  refine ⟨?_, ?_, ?_, tryPromote_fst_owner rec now,
    entityMoved_fst_owner rec now newPos, intervalPromote_fst_owner rec now,
    reconcile_owner rec now live, goneB_owner rec now,
    runEvents_owner rec evs⟩
  · intro h
    unfold delayedRescore
    rw [if_pos h]
  · unfold delayedRescore
    split_ifs with h hb
    · exact Or.inl rfl
    · exact Or.inr ⟨not_not.mp h, rfl, hb⟩
    · exact Or.inl rfl
  · unfold delayedRescore
    split_ifs with h hb
    · exact id
    · intro hu
      exact absurd hu hb
    · exact id

/-- Witness for C6_owner_monotonic: a resolved owner is left untouched by the
delayed re-score. -/
theorem C6_owner_monotonic_witness :
    delayedRescore cxStasisRec "Q" = cxStasisRec :=
  (C6_owner_monotonic cxStasisRec "Q" 0 ⟨0, 0, 0⟩ none []).1 (by decide)

/-! ## C7: reconciliation missing-timer and grace period -/

/-- A run of reconciliation ticks during which the record's entity is absent
from every snapshot; a deleted record (none) stays deleted. -/
def runReconcileAbsent (rec : PearlRecord) (ts : List ℤ) : Option PearlRecord :=
  ts.foldl (fun o t => o.bind (fun r => reconcileRec r t none)) (some rec)

lemma reconcile_absent_keeps (rec : PearlRecord) (now m : ℤ)
    (hm : rec.missingSince = some m) (hm0 : m ≠ 0)
    (hlt : now - m < MISSING_GRACE_MS) : reconcileRec rec now none = some rec := by
  unfold reconcileRec
  cases he : rec.entityId with
  | none => rfl
  | some eid =>
    rw [hm]
    dsimp only
    rw [if_neg (by simp [jsTruthy, hm0]), if_neg (not_le.mpr hlt)]

lemma runReconcileAbsent_keeps (rec : PearlRecord) (m : ℤ) (ts : List ℤ)
    (hm : rec.missingSince = some m) (hm0 : m ≠ 0)
    (hts : ∀ t ∈ ts, t - m < MISSING_GRACE_MS) :
    runReconcileAbsent rec ts = some rec := by
  induction ts with
  | nil => rfl
  | cons t ts ih =>
    unfold runReconcileAbsent at ih ⊢
    simp only [List.foldl_cons, Option.some_bind]
    rw [reconcile_absent_keeps rec t m hm hm0 (hts t (List.mem_cons_self t ts))]
    exact ih (fun t' ht' => hts t' (List.mem_cons_of_mem t ht'))

/-- C7: the reconciliation loop never deletes a tracked record that has been
missing for less than the grace period (per tick, and over any run of ticks
within the grace window); a deletion can only happen once the missing timer
is at least the grace period old; a present entity clears the missing timer;
the first absent tick starts the timer; once the grace period has elapsed the
absent record is deleted, and a deleted record stays deleted (deletion
happens exactly once). -/
theorem C7_missing_grace (rec : PearlRecord) (now : ℤ) (live : Vec3) :
    (reconcileRec rec now none = none →
      ∃ m, rec.missingSince = some m ∧ m ≠ 0 ∧ now - m ≥ MISSING_GRACE_MS)
    ∧ (∀ eid, rec.entityId = some eid →
        ∃ r', reconcileRec rec now (some live) = some r'
          ∧ r'.missingSince = none)
    ∧ (∀ eid, rec.entityId = some eid → rec.missingSince = none →
        reconcileRec rec now none = some { rec with missingSince := some now })
    ∧ (∀ m, rec.missingSince = some m → m ≠ 0 →
        now - m < MISSING_GRACE_MS → reconcileRec rec now none = some rec)
    ∧ (∀ m ts, rec.missingSince = some m → m ≠ 0 →
        (∀ t ∈ ts, t - m < MISSING_GRACE_MS) →
        runReconcileAbsent rec ts = some rec)
    ∧ (∀ m eid, rec.entityId = some eid → rec.missingSince = some m → m ≠ 0 →
        now - m ≥ MISSING_GRACE_MS → reconcileRec rec now none = none)
    ∧ (∀ ts : List ℤ,
        ts.foldl (fun o t => o.bind (fun r => reconcileRec r t none)) none
          = none) := by
  refine ⟨?_, ?_, ?_,
    fun m hm hm0 hlt => reconcile_absent_keeps rec now m hm hm0 hlt,
    fun m ts hm hm0 hts => runReconcileAbsent_keeps rec m ts hm hm0 hts,
    ?_, ?_⟩
  · intro h
    unfold reconcileRec at h
    cases he : rec.entityId with
    | none =>
      rw [he] at h
      simp at h
    | some eid =>
      rw [he] at h
      dsimp only at h
      cases hm : rec.missingSince with
      | none =>
        rw [hm] at h
        simp [jsTruthy] at h
      | some m =>
        rw [hm] at h
        by_cases hm0 : m = 0
        · subst hm0
          simp [jsTruthy] at h
        · rw [if_neg (by simp [jsTruthy, hm0])] at h
          dsimp only at h
          refine ⟨m, rfl, hm0, ?_⟩
          by_contra hge
          rw [if_neg hge] at h
          cases h
  · intro eid heid
    unfold reconcileRec
    rw [heid]
    refine ⟨syncRefresh rec now live, rfl, ?_⟩
    unfold syncRefresh
    split <;> rfl
  · intro eid heid hnone
    unfold reconcileRec
    rw [heid, hnone]
    dsimp only
    rw [if_pos (by simp [jsTruthy])]
  · intro m eid heid hm hm0 hge
    unfold reconcileRec
    rw [heid, hm]
    dsimp only
    rw [if_neg (by simp [jsTruthy, hm0]), if_pos hge]
  · intro ts
    induction ts with
    | nil => rfl
    | cons t ts ih =>
      simp only [List.foldl_cons, Option.none_bind]
      exact ih

/-- Concrete tracked record already missing since time 1000, for the C7
witness. -/
def cxMissingRec : PearlRecord :=
  { cxStasisRec with entityId := some 7, missingSince := some 1000 }

/-- Witness for C7_missing_grace: within the grace window the record
survives an absent tick; at 5000 ms past the missing mark it is deleted. -/
theorem C7_missing_grace_witness :
    reconcileRec cxMissingRec 3000 none = some cxMissingRec
    ∧ reconcileRec cxMissingRec 6000 none = none :=
  ⟨(C7_missing_grace cxMissingRec 3000 ⟨0, 0, 0⟩).2.2.2.1 1000 rfl
      (by decide) (by decide),
    (C7_missing_grace cxMissingRec 6000 ⟨0, 0, 0⟩).2.2.2.2.2.1 1000 7 rfl rfl
      (by decide) (by decide)⟩

/-! ## C4: the entity-removal handlers -/

lemma tryPromote_disj (rec : PearlRecord) (now : ℤ) :
    tryPromoteToStasis rec now = (rec, false)
    ∨ ((tryPromoteToStasis rec now).2 = true
        ∧ ((tryPromoteToStasis rec now).1).status = PearlStatus.stasis) := by
  unfold tryPromoteToStasis
  split
  · exact Or.inl rfl
  · split
    · exact Or.inl rfl
    · split
      · exact Or.inl rfl
      · split
        · exact Or.inl rfl
        · split
          · exact Or.inl rfl
          · exact Or.inr ⟨rfl, rfl⟩

lemma tryPromote_false_id (rec : PearlRecord) (now : ℤ)
    (h : (tryPromoteToStasis rec now).2 = false) :
    (tryPromoteToStasis rec now).1 = rec := by
  rcases tryPromote_disj rec now with he | ⟨ht, -⟩
  · rw [he]
  · rw [ht] at h
    cases h

lemma tryPromote_true_status (rec : PearlRecord) (now : ℤ)
    (h : (tryPromoteToStasis rec now).2 = true) :
    ((tryPromoteToStasis rec now).1).status = PearlStatus.stasis := by
  rcases tryPromote_disj rec now with he | ⟨-, hs⟩
  · rw [he] at h
    cases h
  · exact hs

/-- C4 counterexample: the variant A entityGone handler deletes a tracked
airborne record outright even when a last-chance promotion would succeed
(the record is not retained as stasis), and the variant B handler, when
promotion fails, marks the record gone but keeps it in the Registry instead
of removing it.  Both variants therefore contradict the claimed behavior. -/
theorem C4_cx_gone_handlers :
    (tryPromoteToStasis cxPromotableRec 5000).2 = true
    ∧ entityGoneA [("k", cxPromotableRec)] "k" = []
    ∧ entityGoneBReg [("k", cxAirborneRec)] "k" 5000
        = [("k", { cxAirborneRec with
                   status := PearlStatus.gone,
                   lastSeenAt := 5000, entityId := none })]
    ∧ (entityGoneB cxAirborneRec 5000).status = PearlStatus.gone :=
  ⟨rfl, rfl, rfl, rfl⟩

/-- C4 (amended): on an entity-removal event the two observed variants
behave differently, and neither matches the claim exactly.  Variant A removes
the keyed record from the Registry unconditionally, with no promotion
attempt.  Variant B keeps a settled record (dropping the entity link),
otherwise attempts a last-chance promotion: on success the record is
retained as stasis with the entity link cleared; on failure it is marked
gone with the link cleared but is retained in the Registry, not removed
(variant B never shrinks the Registry). -/
theorem C4_gone_handlers (reg : Registry) (key : String) (rec : PearlRecord)
    (now : ℤ) :
    (∀ kv, kv ∈ entityGoneA reg key ↔ kv ∈ reg ∧ kv.1 ≠ key)
    ∧ (rec.status = PearlStatus.stasis →
        entityGoneB rec now = { rec with lastSeenAt := now, entityId := none })
    ∧ (rec.status ≠ PearlStatus.stasis →
        (tryPromoteToStasis rec now).2 = true →
        entityGoneB rec now
          = { (tryPromoteToStasis rec now).1 with entityId := none }
        ∧ (entityGoneB rec now).status = PearlStatus.stasis)
    ∧ (rec.status ≠ PearlStatus.stasis →
        (tryPromoteToStasis rec now).2 = false →
        entityGoneB rec now
          = { rec with
              status := PearlStatus.gone, lastSeenAt := now,
              entityId := none })
    ∧ (entityGoneBReg reg key now).length = reg.length := by
  refine ⟨?_, ?_, ?_, ?_, ?_⟩
  · intro kv
    unfold entityGoneA
    simp [List.mem_filter]
  · intro h
    unfold entityGoneB
    rw [if_pos h]
  · intro hst hp
    have h1 : entityGoneB rec now
        = { (tryPromoteToStasis rec now).1 with entityId := none } := by
      unfold entityGoneB
      rw [if_neg hst]
      dsimp only
      rw [if_pos (tryPromote_true_status rec now hp)]
    refine ⟨h1, ?_⟩
    rw [h1]
    exact tryPromote_true_status rec now hp
  · intro hst hp
    unfold entityGoneB
    rw [if_neg hst]
    dsimp only
    rw [tryPromote_false_id rec now hp, if_neg hst]
  · unfold entityGoneBReg
    simp

/-- Witness for C4_gone_handlers: a settled record is retained with its
entity link dropped. -/
theorem C4_gone_handlers_witness :
    entityGoneB cxStasisRec 42
      = { cxStasisRec with lastSeenAt := 42, entityId := none } :=
  (C4_gone_handlers [] "k" cxStasisRec 42).2.1 rfl

/-! ## C10: no promotion without a qualifying move sample -/

lemma tryPromote_not_truthy (rec : PearlRecord) (now : ℤ)
    (h : ¬ jsTruthy rec.stableSince = true) :
    tryPromoteToStasis rec now = (rec, false) := by
  unfold tryPromoteToStasis
  split_ifs
  · rfl
  · rfl
  · rfl

/-- Trace predicate: every motion sample in the event list is disqualifying
at the state it is processed in — the pearl never produces a qualifying
(stable) move sample. -/
inductive NoQualifyingMoves : PearlRecord → List PearlEvent → Prop where
  | nil (rec : PearlRecord) : NoQualifyingMoves rec []
  | move (rec : PearlRecord) (t : ℤ) (p : Vec3) (evs : List PearlEvent) :
      disqualifyingSample rec t p →
      NoQualifyingMoves (stepEvent rec (PearlEvent.move t p)) evs →
      NoQualifyingMoves rec (PearlEvent.move t p :: evs)
  | check (rec : PearlRecord) (t : ℤ) (evs : List PearlEvent) :
      NoQualifyingMoves (stepEvent rec (PearlEvent.check t)) evs →
      NoQualifyingMoves rec (PearlEvent.check t :: evs)
  | sync (rec : PearlRecord) (t : ℤ) (p : Vec3) (evs : List PearlEvent) :
      NoQualifyingMoves (stepEvent rec (PearlEvent.sync t p)) evs →
      NoQualifyingMoves rec (PearlEvent.sync t p :: evs)

lemma noqual_step (rec : PearlRecord) (ev : PearlEvent)
    (hst : rec.status = PearlStatus.airborne) (hss : rec.stableSince = none)
    (hd : match ev with
          | PearlEvent.move t p => disqualifyingSample rec t p
          | _ => True) :
    (stepEvent rec ev).status = PearlStatus.airborne
    ∧ (stepEvent rec ev).stableSince = none := by
  cases ev with
  | move t p =>
    show ((entityMovedUpdate rec t p).1).status = PearlStatus.airborne
      ∧ ((entityMovedUpdate rec t p).1).stableSince = none
    unfold entityMovedUpdate
    rw [if_neg (by simp [hst])]
    dsimp only
    rw [if_pos hd]
    rw [tryPromote_not_truthy _ t (by simp [jsTruthy])]
    exact ⟨hst, rfl⟩
  | check t =>
    show ((intervalPromote rec t).1).status = PearlStatus.airborne
      ∧ ((intervalPromote rec t).1).stableSince = none
    unfold intervalPromote
    rw [if_pos hst, tryPromote_not_truthy rec t (by simp [jsTruthy, hss])]
    exact ⟨hst, hss⟩
  | sync t p =>
    show (syncStep rec t p).status = PearlStatus.airborne
      ∧ (syncStep rec t p).stableSince = none
    unfold syncStep
    split
    · exact ⟨hst, hss⟩
    · unfold syncRefresh
      rw [if_neg (by simp [hst])]
      exact ⟨hst, hss⟩

lemma noqual_run (rec : PearlRecord) (evs : List PearlEvent)
    (h : NoQualifyingMoves rec evs) (hst : rec.status = PearlStatus.airborne)
    (hss : rec.stableSince = none) :
    (runEvents rec evs).status = PearlStatus.airborne
    ∧ (runEvents rec evs).stableSince = none := by
  induction h with
  | nil rec => exact ⟨hst, hss⟩
  | move rec t p evs hd _ ih =>
    have hstep := noqual_step rec (PearlEvent.move t p) hst hss hd
    unfold runEvents at ih ⊢
    simp only [List.foldl_cons]
    exact ih hstep.1 hstep.2
  | check rec t evs _ ih =>
    have hstep := noqual_step rec (PearlEvent.check t) hst hss trivial
    unfold runEvents at ih ⊢
    simp only [List.foldl_cons]
    exact ih hstep.1 hstep.2
  | sync rec t p evs _ ih =>
    have hstep := noqual_step rec (PearlEvent.sync t p) hst hss trivial
    unfold runEvents at ih ⊢
    simp only [List.foldl_cons]
    exact ih hstep.1 hstep.2

/-- C10: an airborne record whose stableSince was never set by a qualifying
move sample is never promoted to stasis by any path.  The promotion guard
returns the record unchanged whenever stableSince is JavaScript-falsy; a
fresh record is created with stableSince unset; and over any event trace
containing no qualifying move sample (motion samples, periodic promotion
checks, reconciliation refreshes) the record stays airborne with stableSince
still unset; the variant B gone handler then marks it gone, not stasis. -/
theorem C10_no_promotion_without_stable (owner : String) (p : Vec3)
    (now : ℤ) (eId : ℕ) (dim : Option String) (rec : PearlRecord) (t : ℤ)
    (evs : List PearlEvent) :
    (newPearlRecord owner p now eId dim).stableSince = none
    ∧ (¬ jsTruthy rec.stableSince = true →
        tryPromoteToStasis rec t = (rec, false))
    ∧ (rec.status = PearlStatus.airborne → rec.stableSince = none →
        NoQualifyingMoves rec evs →
        (runEvents rec evs).status = PearlStatus.airborne
        ∧ (runEvents rec evs).status ≠ PearlStatus.stasis)
    ∧ (rec.status = PearlStatus.airborne → rec.stableSince = none →
        (entityGoneB rec t).status = PearlStatus.gone) := by
  refine ⟨rfl, fun h => tryPromote_not_truthy rec t h, ?_, ?_⟩
  · intro hst hss hno
    have h := noqual_run rec evs hno hst hss
    refine ⟨h.1, ?_⟩
    rw [h.1]
    decide
  · intro hst hss
    unfold entityGoneB
    rw [if_neg (by simp [hst])]
    dsimp only
    rw [tryPromote_not_truthy rec t (by simp [jsTruthy, hss])]
    rw [if_neg (by simp [hst])]

/-- Concrete fresh record for the C10 witness. -/
def cxFreshRec : PearlRecord := newPearlRecord "P" ⟨0, 0, 0⟩ 100 7 none

/-- Witness for C10_no_promotion_without_stable: a fresh record that only
ever sees a periodic promotion check stays airborne. -/
theorem C10_no_promotion_without_stable_witness :
    (runEvents cxFreshRec [PearlEvent.check 10000]).status
      = PearlStatus.airborne :=
  ((C10_no_promotion_without_stable "P" ⟨0, 0, 0⟩ 100 7 none cxFreshRec 0
      [PearlEvent.check 10000]).2.2.1 rfl rfl
    (NoQualifyingMoves.check cxFreshRec 10000 []
      (NoQualifyingMoves.nil _))).1

/-! ## C3: the promotion guard, timer reset, and settle delay -/

/-- Fidelity bridge: the squared comparisons used by the embedding of the
stability rule are equivalent to the source's square-root comparisons
(displacement d and speed d / dt against the epsilons) over the reals. -/
lemma disqualifying_iff_sqrt (rec : PearlRecord) (now : ℤ) (newPos : Vec3) :
    disqualifyingSample rec now newPos ↔
      (((MOVE_EPS : ℚ) : ℝ) < Real.sqrt ((distSq rec.pos newPos : ℚ) : ℝ)
        ∨ ((SPEED_EPS : ℚ) : ℝ)
            < Real.sqrt ((distSq rec.pos newPos : ℚ) : ℝ)
              / ((sampleDt rec now : ℚ) : ℝ)) := by
  have hdt : (0 : ℚ) < sampleDt rec now := by
    unfold sampleDt
    apply div_pos _ (by norm_num)
    have h1 : (1 : ℤ) ≤ max 1 (now - rec.lastRawAt.getD now) := le_max_left _ _
    exact_mod_cast lt_of_lt_of_le Int.zero_lt_one h1
  have hdtR : (0 : ℝ) < ((sampleDt rec now : ℚ) : ℝ) := by exact_mod_cast hdt
  unfold disqualifyingSample
  apply or_congr
  · rw [Real.lt_sqrt (by norm_num [MOVE_EPS])]
    rw [show (((MOVE_EPS : ℚ) : ℝ)) ^ 2 = ((MOVE_EPS * MOVE_EPS : ℚ) : ℝ) by
      push_cast
      ring]
    constructor <;> intro h <;> exact_mod_cast h
  · rw [lt_div_iff₀ hdtR,
      Real.lt_sqrt (mul_nonneg (by norm_num [SPEED_EPS]) hdtR.le)]
    rw [show (((SPEED_EPS : ℚ) : ℝ) * ((sampleDt rec now : ℚ) : ℝ)) ^ 2
        = ((SPEED_EPS * SPEED_EPS * (sampleDt rec now * sampleDt rec now) : ℚ) : ℝ) by
      push_cast
      ring]
    constructor <;> intro h <;> exact_mod_cast h

lemma tryPromote_fst_stableSince (rec : PearlRecord) (now : ℤ) :
    ((tryPromoteToStasis rec now).1).stableSince = rec.stableSince := by
  unfold tryPromoteToStasis
  split
  · rfl
  · split
    · rfl
    · split
      · rfl
      · split
        · rfl
        · split <;> rfl

lemma tryPromote_true_implies (rec : PearlRecord) (now : ℤ)
    (h : (tryPromoteToStasis rec now).2 = true) :
    rec.status = PearlStatus.airborne ∧ MIN_AGE_MS ≤ now - rec.createdAt
      ∧ ∃ s, rec.stableSince = some s ∧ s ≠ 0 ∧ SETTLE_MS ≤ now - s := by
  unfold tryPromoteToStasis at h
  split at h
  · simp at h
  · split at h
    · simp at h
    · split at h
      · simp at h
      · split at h
        · simp at h
        · split at h
          · simp at h
          · rename_i hst hage htr x s hss hset
            refine ⟨not_not.mp hst, not_lt.mp hage, s, hss, ?_, not_lt.mp hset⟩
            have h2 := not_not.mp htr
            rw [hss] at h2
            simpa [jsTruthy] using h2

lemma tryPromote_guard_fires (rec : PearlRecord) (now s : ℤ)
    (hst : rec.status = PearlStatus.airborne)
    (hage : MIN_AGE_MS ≤ now - rec.createdAt)
    (hss : rec.stableSince = some s) (hs0 : s ≠ 0)
    (hsettle : SETTLE_MS ≤ now - s) :
    (tryPromoteToStasis rec now).2 = true := by
  unfold tryPromoteToStasis
  rw [if_neg (by simp [hst]), if_neg (not_lt.mpr hage),
    if_neg (by simp [jsTruthy, hss, hs0]), hss]
  dsimp only
  rw [if_neg (not_lt.mpr hsettle)]

/-- Lower bound on the stability timer: whenever stableSince is set, it is at
least T. -/
def StableLB (T : ℤ) (rec : PearlRecord) : Prop :=
  ∀ s, rec.stableSince = some s → T ≤ s

lemma tryPromote_no_fire (rec : PearlRecord) (now T : ℤ)
    (hLB : StableLB T rec) (hlt : now < T + SETTLE_MS) :
    tryPromoteToStasis rec now = (rec, false) := by
  rcases tryPromote_disj rec now with he | ⟨ht, -⟩
  · exact he
  · exfalso
    obtain ⟨-, -, s, hss, -, hsettle⟩ := tryPromote_true_implies rec now ht
    have hT := hLB s hss
    linarith

/-- The state written by a disqualifying motion sample (the moved branch of
the entityMoved handler followed by the failing promotion attempt): the
stability timer and remembered stable position are cleared. -/
lemma entityMoved_disq (rec : PearlRecord) (t : ℤ) (p : Vec3)
    (hstas : rec.status ≠ PearlStatus.stasis)
    (hd : disqualifyingSample rec t p) :
    (entityMovedUpdate rec t p).1
      = { rec with
          lastSeenAt := t, pos := p,
          lastSpeedSq := some (distSq rec.pos p
            / (sampleDt rec t * sampleDt rec t)),
          lastRawAt := some t, lastMoveAt := t,
          stableSince := none, stablePos := none, missingSince := none } := by
  unfold entityMovedUpdate
  rw [if_neg hstas]
  dsimp only
  rw [if_pos hd, tryPromote_not_truthy _ t (by simp [jsTruthy])]

/-- The record state after the stable branch of the entityMoved handler,
before the promotion attempt. -/
def qualUpdate (rec : PearlRecord) (now : ℤ) (newPos : Vec3) : PearlRecord :=
  { rec with
    lastSeenAt := now, pos := newPos,
    lastSpeedSq := some (distSq rec.pos newPos
      / (sampleDt rec now * sampleDt rec now)),
    lastRawAt := some now,
    stableSince := if jsTruthy rec.stableSince then rec.stableSince
                   else some now,
    stablePos := some newPos }

lemma entityMoved_qual (rec : PearlRecord) (t : ℤ) (p : Vec3)
    (hstas : rec.status ≠ PearlStatus.stasis)
    (hd : ¬ disqualifyingSample rec t p) :
    (entityMovedUpdate rec t p).1
      = { (tryPromoteToStasis (qualUpdate rec t p) t).1 with
          missingSince := none } := by
  unfold entityMovedUpdate qualUpdate
  rw [if_neg hstas]
  dsimp only
  rw [if_neg hd]

lemma step_no_promote (T : ℤ) (rec : PearlRecord) (ev : PearlEvent)
    (hst : rec.status = PearlStatus.airborne) (hLB : StableLB T rec)
    (hT : T ≤ eventTime ev) (hlt : eventTime ev < T + SETTLE_MS) :
    (stepEvent rec ev).status = PearlStatus.airborne
    ∧ StableLB T (stepEvent rec ev) := by
  cases ev with
  | check t =>
    show ((intervalPromote rec t).1).status = PearlStatus.airborne
      ∧ StableLB T ((intervalPromote rec t).1)
    unfold intervalPromote
    rw [if_pos hst, tryPromote_no_fire rec t T hLB hlt]
    exact ⟨hst, hLB⟩
  | sync t p =>
    show (syncStep rec t p).status = PearlStatus.airborne
      ∧ StableLB T (syncStep rec t p)
    unfold syncStep
    split
    · exact ⟨hst, hLB⟩
    · unfold syncRefresh
      rw [if_neg (by simp [hst])]
      exact ⟨hst, fun s hs => hLB s hs⟩
  | move t p =>
    show ((entityMovedUpdate rec t p).1).status = PearlStatus.airborne
      ∧ StableLB T ((entityMovedUpdate rec t p).1)
    by_cases hd : disqualifyingSample rec t p
    · rw [entityMoved_disq rec t p (by simp [hst]) hd]
      exact ⟨hst, fun s hs => by cases hs⟩
    · rw [entityMoved_qual rec t p (by simp [hst]) hd]
      have hLB' : StableLB T (qualUpdate rec t p) := by
        intro s hs
        have h2 : (if jsTruthy rec.stableSince then rec.stableSince
            else some t) = some s := hs
        by_cases hj : jsTruthy rec.stableSince = true
        · rw [if_pos hj] at h2
          exact hLB s h2
        · rw [if_neg hj] at h2
          cases h2
          exact hT
      rw [tryPromote_no_fire (qualUpdate rec t p) t T hLB' hlt]
      exact ⟨hst, hLB'⟩

lemma run_no_promote (T : ℤ) (evs : List PearlEvent) : ∀ rec : PearlRecord,
    rec.status = PearlStatus.airborne → StableLB T rec →
    (∀ ev ∈ evs, T ≤ eventTime ev ∧ eventTime ev < T + SETTLE_MS) →
    (runEvents rec evs).status = PearlStatus.airborne := by
  induction evs with
  | nil =>
    intro rec hst _ _
    exact hst
  | cons e es ih =>
    intro rec hst hLB hts
    unfold runEvents at ih ⊢
    simp only [List.foldl_cons]
    obtain ⟨h1, h2⟩ := step_no_promote T rec e hst hLB
      (hts e (List.mem_cons_self _ _)).1 (hts e (List.mem_cons_self _ _)).2
    exact ih (stepEvent rec e) h1 h2
      (fun ev hev => hts ev (List.mem_cons_of_mem _ hev))

/-- The scenario C record: a pearl created at t0 = 100000. -/
def cxScenarioRec : PearlRecord := newPearlRecord "P" ⟨0, 0, 0⟩ 100000 7 none

/-- C3: promotion fires iff the record is airborne, its age is at least
MIN_AGE_MS, and the (truthy) stability timer has been running at least
SETTLE_MS; a disqualifying sample at time T clears the timer, and no
subsequent events with timestamps in [T, T + SETTLE_MS) can promote the
record; concretely, a pearl created at t0 = 100000 whose last disqualifying
motion is at t0 + 2400 and which is stable from that instant on is still
airborne at a promotion check at t0 + 2999 and settles at the
t0 + 3000 check. -/
theorem C3_promotion_guard (rec : PearlRecord) (now T : ℤ) (p : Vec3)
    (evs : List PearlEvent) :
    ((tryPromoteToStasis rec now).2 = true ↔
      rec.status = PearlStatus.airborne ∧ MIN_AGE_MS ≤ now - rec.createdAt
        ∧ ∃ s, rec.stableSince = some s ∧ s ≠ 0 ∧ SETTLE_MS ≤ now - s)
    ∧ (rec.status = PearlStatus.airborne → disqualifyingSample rec T p →
        ((entityMovedUpdate rec T p).1).stableSince = none
        ∧ ((entityMovedUpdate rec T p).1).status = PearlStatus.airborne
        ∧ ((∀ ev ∈ evs, T ≤ eventTime ev ∧ eventTime ev < T + SETTLE_MS) →
            (runEvents (entityMovedUpdate rec T p).1 evs).status
              ≠ PearlStatus.stasis))
    ∧ (runEvents cxScenarioRec
        [PearlEvent.move 102400 ⟨10, 0, 0⟩, PearlEvent.move 102400 ⟨10, 0, 0⟩,
         PearlEvent.check 102999]).status = PearlStatus.airborne
    ∧ (runEvents cxScenarioRec
        [PearlEvent.move 102400 ⟨10, 0, 0⟩, PearlEvent.move 102400 ⟨10, 0, 0⟩,
         PearlEvent.check 102999, PearlEvent.check 103000]).status
        = PearlStatus.stasis := by
  refine ⟨⟨?_, ?_⟩, ?_, ?_, ?_⟩
  · intro h
    exact tryPromote_true_implies rec now h
  · rintro ⟨hst, hage, s, hss, hs0, hsettle⟩
    exact tryPromote_guard_fires rec now s hst hage hss hs0 hsettle
  · intro hst hd
    have hq := entityMoved_disq rec T p (by simp [hst]) hd
    refine ⟨by rw [hq], by rw [hq]; exact hst, ?_⟩
    intro hts
    have h1 : ((entityMovedUpdate rec T p).1).status = PearlStatus.airborne := by
      rw [hq]
      exact hst
    have h2 : StableLB T ((entityMovedUpdate rec T p).1) := by
      rw [hq]
      intro s hs
      simp at hs
    rw [run_no_promote T evs _ h1 h2 hts]
    decide
  · norm_num [runEvents, List.foldl, stepEvent, entityMovedUpdate,
      intervalPromote, tryPromoteToStasis, disqualifyingSample, sampleDt,
      distSq, jsTruthy, newPearlRecord, cxScenarioRec, snapToBlock,
      MIN_AGE_MS, SETTLE_MS, MOVE_EPS, SPEED_EPS,
      (by decide : PearlStatus.airborne ≠ PearlStatus.stasis),
      (by decide : PearlStatus.stasis ≠ PearlStatus.airborne)]
  · norm_num [runEvents, List.foldl, stepEvent, entityMovedUpdate,
      intervalPromote, tryPromoteToStasis, disqualifyingSample, sampleDt,
      distSq, jsTruthy, newPearlRecord, cxScenarioRec, snapToBlock,
      MIN_AGE_MS, SETTLE_MS, MOVE_EPS, SPEED_EPS,
      (by decide : PearlStatus.airborne ≠ PearlStatus.stasis),
      (by decide : PearlStatus.stasis ≠ PearlStatus.airborne)]

/-- Witness for C3_promotion_guard: a concrete disqualifying sample clears
the stability timer. -/
theorem C3_promotion_guard_witness :
    ((entityMovedUpdate cxAirborneRec 50 ⟨30, 0, 0⟩).1).stableSince = none :=
  ((C3_promotion_guard cxAirborneRec 0 50 ⟨30, 0, 0⟩ []).2.1 rfl
    (by
      unfold disqualifyingSample
      left
      norm_num [distSq, cxAirborneRec, MOVE_EPS])).1

/-! ## C5: the attribution scorer -/

lemma pickAux_nil (pp : Vec3R) (now : ℝ) (sw : ℕ → Option ℝ)
    (acc : Option (ℝ × String)) : pickAux pp now sw [] acc = acc := by
  simp only [pickAux]

lemma pickAux_cons_entNone (pp : Vec3R) (now : ℝ) (sw : ℕ → Option ℝ)
    (p : PlayerObs) (ps : List PlayerObs) (acc : Option (ℝ × String))
    (hent : p.ent = none) :
    pickAux pp now sw (p :: ps) acc = pickAux pp now sw ps acc := by
  simp only [pickAux, hent]

lemma pickAux_cons_far (pp : Vec3R) (now : ℝ) (sw : ℕ → Option ℝ)
    (p : PlayerObs) (ps : List PlayerObs) (acc : Option (ℝ × String))
    (e : EntObs) (hent : p.ent = some e)
    (hfar : playerDistSq e.pos pp > CANDIDATE_RADIUS * CANDIDATE_RADIUS) :
    pickAux pp now sw (p :: ps) acc = pickAux pp now sw ps acc := by
  simp only [pickAux, hent]
  rw [if_pos hfar]

lemma pickAux_cons_noswing (pp : Vec3R) (now : ℝ) (sw : ℕ → Option ℝ)
    (p : PlayerObs) (ps : List PlayerObs) (acc : Option (ℝ × String))
    (e : EntObs) (hent : p.ent = some e)
    (hnear : ¬ playerDistSq e.pos pp > CANDIDATE_RADIUS * CANDIDATE_RADIUS)
    (hsw : sw e.id = none) :
    pickAux pp now sw (p :: ps) acc = pickAux pp now sw ps acc := by
  simp only [pickAux, hent, hsw]
  rw [if_neg hnear]

lemma pickAux_cons_old (pp : Vec3R) (now : ℝ) (sw : ℕ → Option ℝ)
    (p : PlayerObs) (ps : List PlayerObs) (acc : Option (ℝ × String))
    (e : EntObs) (t : ℝ) (hent : p.ent = some e)
    (hnear : ¬ playerDistSq e.pos pp > CANDIDATE_RADIUS * CANDIDATE_RADIUS)
    (hsw : sw e.id = some t) (hold : now - t > SWING_WINDOW_MS) :
    pickAux pp now sw (p :: ps) acc = pickAux pp now sw ps acc := by
  simp only [pickAux, hent, hsw]
  rw [if_neg hnear, if_pos hold]

lemma pickAux_cons_cand_none (pp : Vec3R) (now : ℝ) (sw : ℕ → Option ℝ)
    (p : PlayerObs) (ps : List PlayerObs)
    (e : EntObs) (t : ℝ) (hent : p.ent = some e)
    (hnear : ¬ playerDistSq e.pos pp > CANDIDATE_RADIUS * CANDIDATE_RADIUS)
    (hsw : sw e.id = some t) (hrec : ¬ now - t > SWING_WINDOW_MS) :
    pickAux pp now sw (p :: ps) none
      = pickAux pp now sw ps (some (scoreOf pp now t e, p.username)) := by
  simp only [pickAux, hent, hsw]
  rw [if_neg hnear, if_neg hrec]

lemma pickAux_cons_cand_gt (pp : Vec3R) (now : ℝ) (sw : ℕ → Option ℝ)
    (p : PlayerObs) (ps : List PlayerObs) (b : ℝ) (u : String)
    (e : EntObs) (t : ℝ) (hent : p.ent = some e)
    (hnear : ¬ playerDistSq e.pos pp > CANDIDATE_RADIUS * CANDIDATE_RADIUS)
    (hsw : sw e.id = some t) (hrec : ¬ now - t > SWING_WINDOW_MS)
    (hgt : scoreOf pp now t e > b) :
    pickAux pp now sw (p :: ps) (some (b, u))
      = pickAux pp now sw ps (some (scoreOf pp now t e, p.username)) := by
  simp only [pickAux, hent, hsw]
  rw [if_neg hnear, if_neg hrec, if_pos hgt]

lemma pickAux_cons_cand_le (pp : Vec3R) (now : ℝ) (sw : ℕ → Option ℝ)
    (p : PlayerObs) (ps : List PlayerObs) (b : ℝ) (u : String)
    (e : EntObs) (t : ℝ) (hent : p.ent = some e)
    (hnear : ¬ playerDistSq e.pos pp > CANDIDATE_RADIUS * CANDIDATE_RADIUS)
    (hsw : sw e.id = some t) (hrec : ¬ now - t > SWING_WINDOW_MS)
    (hng : ¬ scoreOf pp now t e > b) :
    pickAux pp now sw (p :: ps) (some (b, u))
      = pickAux pp now sw ps (some (b, u)) := by
  simp only [pickAux, hent, hsw]
  rw [if_neg hnear, if_neg hrec, if_neg hng]

lemma pickAux_none_of_no_qual (pp : Vec3R) (now : ℝ) (sw : ℕ → Option ℝ) :
    ∀ (ps : List PlayerObs) (acc : Option (ℝ × String)),
      (∀ p ∈ ps, ¬ Qualifies pp now sw p) →
      pickAux pp now sw ps acc = acc := by
  intro ps
  induction ps with
  | nil =>
    intro acc _
    exact pickAux_nil pp now sw acc
  | cons p ps ih =>
    intro acc h
    have hrest : ∀ q ∈ ps, ¬ Qualifies pp now sw q :=
      fun q hq => h q (List.mem_cons_of_mem _ hq)
    cases hent : p.ent with
    | none =>
      rw [pickAux_cons_entNone pp now sw p ps acc hent]
      exact ih acc hrest
    | some e =>
      by_cases hfar : playerDistSq e.pos pp
          > CANDIDATE_RADIUS * CANDIDATE_RADIUS
      · rw [pickAux_cons_far pp now sw p ps acc e hent hfar]
        exact ih acc hrest
      · cases hsw : sw e.id with
        | none =>
          rw [pickAux_cons_noswing pp now sw p ps acc e hent hfar hsw]
          exact ih acc hrest
        | some t =>
          by_cases hold : now - t > SWING_WINDOW_MS
          · rw [pickAux_cons_old pp now sw p ps acc e t hent hfar hsw hold]
            exact ih acc hrest
          · exact absurd
              ⟨e, hent, not_lt.mp hfar, t, hsw, not_lt.mp hold⟩
              (h p (List.mem_cons_self _ _))

lemma pickAux_spec (pp : Vec3R) (now : ℝ) (sw : ℕ → Option ℝ) :
    ∀ (ps : List PlayerObs) (acc : Option (ℝ × String)),
      (pickAux pp now sw ps acc = acc
        ∨ ∃ p ∈ ps, ∃ e t, p.ent = some e ∧ sw e.id = some t
            ∧ playerDistSq e.pos pp ≤ CANDIDATE_RADIUS * CANDIDATE_RADIUS
            ∧ now - t ≤ SWING_WINDOW_MS
            ∧ pickAux pp now sw ps acc
                = some (scoreOf pp now t e, p.username))
      ∧ (∀ b u, pickAux pp now sw ps acc = some (b, u) →
          (∀ q ∈ ps, ∀ e2 t2, q.ent = some e2 → sw e2.id = some t2 →
            playerDistSq e2.pos pp ≤ CANDIDATE_RADIUS * CANDIDATE_RADIUS →
            now - t2 ≤ SWING_WINDOW_MS →
            scoreOf pp now t2 e2 ≤ b)
          ∧ (∀ b0 u0, acc = some (b0, u0) → b0 ≤ b)) := by
  intro ps
  induction ps with
  | nil =>
    intro acc
    constructor
    · exact Or.inl (pickAux_nil pp now sw acc)
    · intro b u hb
      rw [pickAux_nil pp now sw acc] at hb
      refine ⟨by simp, ?_⟩
      intro b0 u0 h0
      rw [h0] at hb
      cases hb
      exact le_refl _
  | cons p ps ih =>
    intro acc
    have hlift :
        ∀ acc', pickAux pp now sw (p :: ps) acc = pickAux pp now sw ps acc' →
        (pickAux pp now sw ps acc' = acc'
          ∨ ∃ q ∈ ps, ∃ e t, q.ent = some e ∧ sw e.id = some t
              ∧ playerDistSq e.pos pp ≤ CANDIDATE_RADIUS * CANDIDATE_RADIUS
              ∧ now - t ≤ SWING_WINDOW_MS
              ∧ pickAux pp now sw ps acc'
                  = some (scoreOf pp now t e, q.username)) →
        (pickAux pp now sw (p :: ps) acc = acc'
          ∨ ∃ q ∈ p :: ps, ∃ e t, q.ent = some e ∧ sw e.id = some t
              ∧ playerDistSq e.pos pp ≤ CANDIDATE_RADIUS * CANDIDATE_RADIUS
              ∧ now - t ≤ SWING_WINDOW_MS
              ∧ pickAux pp now sw (p :: ps) acc
                  = some (scoreOf pp now t e, q.username)) := by
      intro acc' hstep hprov
      rcases hprov with hl | ⟨q, hq, e, t, h1, h2, h3, h4, h5⟩
      · exact Or.inl (hstep.trans hl)
      · exact Or.inr ⟨q, List.mem_cons_of_mem _ hq, e, t, h1, h2, h3, h4,
          hstep.trans h5⟩
    cases hent : p.ent with
    | none =>
      have hstep := pickAux_cons_entNone pp now sw p ps acc hent
      obtain ⟨hprov, hdom⟩ := ih acc
      refine ⟨hlift acc hstep hprov, ?_⟩
      intro b u hb
      obtain ⟨hd1, hd2⟩ := hdom b u (hstep.symm.trans hb)
      refine ⟨?_, hd2⟩
      intro q hq e2 t2 hqe hqs hqd hqr
      rcases List.mem_cons.mp hq with rfl | hq'
      · rw [hent] at hqe
        cases hqe
      · exact hd1 q hq' e2 t2 hqe hqs hqd hqr
    | some e =>
      by_cases hfar : playerDistSq e.pos pp
          > CANDIDATE_RADIUS * CANDIDATE_RADIUS
      · have hstep := pickAux_cons_far pp now sw p ps acc e hent hfar
        obtain ⟨hprov, hdom⟩ := ih acc
        refine ⟨hlift acc hstep hprov, ?_⟩
        intro b u hb
        obtain ⟨hd1, hd2⟩ := hdom b u (hstep.symm.trans hb)
        refine ⟨?_, hd2⟩
        intro q hq e2 t2 hqe hqs hqd hqr
        rcases List.mem_cons.mp hq with rfl | hq'
        · rw [hent] at hqe
          cases hqe
          exact absurd hqd (not_le.mpr hfar)
        · exact hd1 q hq' e2 t2 hqe hqs hqd hqr
      · cases hsw : sw e.id with
        | none =>
          have hstep := pickAux_cons_noswing pp now sw p ps acc e hent hfar hsw
          obtain ⟨hprov, hdom⟩ := ih acc
          refine ⟨hlift acc hstep hprov, ?_⟩
          intro b u hb
          obtain ⟨hd1, hd2⟩ := hdom b u (hstep.symm.trans hb)
          refine ⟨?_, hd2⟩
          intro q hq e2 t2 hqe hqs hqd hqr
          rcases List.mem_cons.mp hq with rfl | hq'
          · rw [hent] at hqe
            cases hqe
            rw [hsw] at hqs
            cases hqs
          · exact hd1 q hq' e2 t2 hqe hqs hqd hqr
        | some t =>
          by_cases hold : now - t > SWING_WINDOW_MS
          · have hstep := pickAux_cons_old pp now sw p ps acc e t hent hfar
              hsw hold
            obtain ⟨hprov, hdom⟩ := ih acc
            refine ⟨hlift acc hstep hprov, ?_⟩
            intro b u hb
            obtain ⟨hd1, hd2⟩ := hdom b u (hstep.symm.trans hb)
            refine ⟨?_, hd2⟩
            intro q hq e2 t2 hqe hqs hqd hqr
            rcases List.mem_cons.mp hq with rfl | hq'
            · rw [hent] at hqe
              cases hqe
              rw [hsw] at hqs
              cases hqs
              exact absurd hqr (not_le.mpr hold)
            · exact hd1 q hq' e2 t2 hqe hqs hqd hqr
          · -- p is a candidate with score s := scoreOf pp now t e
            have hself :
                (pickAux pp now sw (p :: ps) acc
                    = pickAux pp now sw ps
                        (some (scoreOf pp now t e, p.username))
                  ∧ ∀ b0 u0, acc = some (b0, u0) → b0 < scoreOf pp now t e)
                ∨ (∃ b0 u0, acc = some (b0, u0)
                    ∧ ¬ scoreOf pp now t e > b0
                    ∧ pickAux pp now sw (p :: ps) acc
                        = pickAux pp now sw ps acc) := by
              cases acc with
              | none =>
                refine Or.inl ⟨pickAux_cons_cand_none pp now sw p ps e t hent
                  hfar hsw hold, ?_⟩
                intro b0 u0 h
                cases h
              | some bu =>
                obtain ⟨b0, u0⟩ := bu
                by_cases hgt : scoreOf pp now t e > b0
                · refine Or.inl ⟨pickAux_cons_cand_gt pp now sw p ps b0 u0
                    e t hent hfar hsw hold hgt, ?_⟩
                  intro b1 u1 h
                  cases h
                  exact hgt
                · exact Or.inr ⟨b0, u0, rfl, hgt,
                    pickAux_cons_cand_le pp now sw p ps b0 u0 e t hent hfar
                      hsw hold hgt⟩
            rcases hself with ⟨hstep, hacclt⟩ | ⟨b0, u0, hacc, hng, hstep⟩
            · constructor
              · obtain ⟨hprov, -⟩ :=
                  ih (some (scoreOf pp now t e, p.username))
                rcases hprov with hl | ⟨q, hq, e', t', h1, h2, h3, h4, h5⟩
                · exact Or.inr ⟨p, List.mem_cons_self _ _, e, t, hent, hsw,
                    not_lt.mp hfar, not_lt.mp hold, hstep.trans hl⟩
                · exact Or.inr ⟨q, List.mem_cons_of_mem _ hq, e', t',
                    h1, h2, h3, h4, hstep.trans h5⟩
              · intro b u hb
                obtain ⟨hd1, hd2⟩ :=
                  (ih (some (scoreOf pp now t e, p.username))).2 b u
                    (hstep.symm.trans hb)
                have hsb : scoreOf pp now t e ≤ b := hd2 _ _ rfl
                refine ⟨?_, ?_⟩
                · intro q hq e2 t2 hqe hqs hqd hqr
                  rcases List.mem_cons.mp hq with rfl | hq'
                  · rw [hent] at hqe
                    cases hqe
                    rw [hsw] at hqs
                    cases hqs
                    exact hsb
                  · exact hd1 q hq' e2 t2 hqe hqs hqd hqr
                · intro b1 u1 h1
                  exact le_trans (le_of_lt (hacclt b1 u1 h1)) hsb
            · constructor
              · obtain ⟨hprov, -⟩ := ih acc
                exact hlift acc hstep hprov
              · intro b u hb
                obtain ⟨hd1, hd2⟩ := (ih acc).2 b u (hstep.symm.trans hb)
                have hb0 : b0 ≤ b := hd2 _ _ hacc
                refine ⟨?_, hd2⟩
                intro q hq e2 t2 hqe hqs hqd hqr
                rcases List.mem_cons.mp hq with rfl | hq'
                · rw [hent] at hqe
                  cases hqe
                  rw [hsw] at hqs
                  cases hqs
                  exact le_trans (not_lt.mp hng) hb0
                · exact hd1 q hq' e2 t2 hqe hqs hqd hqr

lemma pickAux_some_ne_none (pp : Vec3R) (now : ℝ) (sw : ℕ → Option ℝ) :
    ∀ (ps : List PlayerObs) (b : ℝ) (u : String),
      pickAux pp now sw ps (some (b, u)) ≠ none := by
  intro ps
  induction ps with
  | nil =>
    intro b u
    rw [pickAux_nil]
    simp
  | cons p ps ih =>
    intro b u
    cases hent : p.ent with
    | none =>
      rw [pickAux_cons_entNone pp now sw p ps _ hent]
      exact ih b u
    | some e =>
      by_cases hfar : playerDistSq e.pos pp
          > CANDIDATE_RADIUS * CANDIDATE_RADIUS
      · rw [pickAux_cons_far pp now sw p ps _ e hent hfar]
        exact ih b u
      · cases hsw : sw e.id with
        | none =>
          rw [pickAux_cons_noswing pp now sw p ps _ e hent hfar hsw]
          exact ih b u
        | some t =>
          by_cases hold : now - t > SWING_WINDOW_MS
          · rw [pickAux_cons_old pp now sw p ps _ e t hent hfar hsw hold]
            exact ih b u
          · by_cases hgt : scoreOf pp now t e > b
            · rw [pickAux_cons_cand_gt pp now sw p ps b u e t hent hfar hsw
                hold hgt]
              exact ih _ _
            · rw [pickAux_cons_cand_le pp now sw p ps b u e t hent hfar hsw
                hold hgt]
              exact ih b u

lemma pickAux_qual_ne_none (pp : Vec3R) (now : ℝ) (sw : ℕ → Option ℝ) :
    ∀ (ps : List PlayerObs) (acc : Option (ℝ × String)),
      (∃ p ∈ ps, Qualifies pp now sw p) →
      pickAux pp now sw ps acc ≠ none := by
  intro ps
  induction ps with
  | nil =>
    rintro acc ⟨p, hp, -⟩
    exact absurd hp (List.not_mem_nil p)
  | cons p ps ih =>
    rintro acc ⟨q, hq, hqual⟩
    rcases List.mem_cons.mp hq with rfl | hq'
    · obtain ⟨e, hent, hdist, t, hsw, hrec⟩ := hqual
      cases acc with
      | none =>
        rw [pickAux_cons_cand_none pp now sw q ps e t hent
          (not_lt.mpr hdist) hsw (not_lt.mpr hrec)]
        exact pickAux_some_ne_none pp now sw ps _ _
      | some bu =>
        obtain ⟨b, u⟩ := bu
        by_cases hgt : scoreOf pp now t e > b
        · rw [pickAux_cons_cand_gt pp now sw q ps b u e t hent
            (not_lt.mpr hdist) hsw (not_lt.mpr hrec) hgt]
          exact pickAux_some_ne_none pp now sw ps _ _
        · rw [pickAux_cons_cand_le pp now sw q ps b u e t hent
            (not_lt.mpr hdist) hsw (not_lt.mpr hrec) hgt]
          exact pickAux_some_ne_none pp now sw ps b u
    · cases hent : p.ent with
      | none =>
        rw [pickAux_cons_entNone pp now sw p ps acc hent]
        exact ih acc ⟨q, hq', hqual⟩
      | some e =>
        by_cases hfar : playerDistSq e.pos pp
            > CANDIDATE_RADIUS * CANDIDATE_RADIUS
        · rw [pickAux_cons_far pp now sw p ps acc e hent hfar]
          exact ih acc ⟨q, hq', hqual⟩
        · cases hsw : sw e.id with
          | none =>
            rw [pickAux_cons_noswing pp now sw p ps acc e hent hfar hsw]
            exact ih acc ⟨q, hq', hqual⟩
          | some t =>
            by_cases hold : now - t > SWING_WINDOW_MS
            · rw [pickAux_cons_old pp now sw p ps acc e t hent hfar hsw hold]
              exact ih acc ⟨q, hq', hqual⟩
            · cases acc with
              | none =>
                rw [pickAux_cons_cand_none pp now sw p ps e t hent hfar hsw
                  hold]
                exact pickAux_some_ne_none pp now sw ps _ _
              | some bu =>
                obtain ⟨b, u⟩ := bu
                by_cases hgt : scoreOf pp now t e > b
                · rw [pickAux_cons_cand_gt pp now sw p ps b u e t hent hfar
                    hsw hold hgt]
                  exact pickAux_some_ne_none pp now sw ps _ _
                · rw [pickAux_cons_cand_le pp now sw p ps b u e t hent hfar
                    hsw hold hgt]
                  exact pickAux_some_ne_none pp now sw ps b u

/-- C5: the attribution scorer never selects a player without a loaded
entity, with a swing older than SWING_WINDOW_MS, with no recorded swing, or
farther than CANDIDATE_RADIUS; it returns "unknown" when no candidate
qualifies; and when at least one player qualifies it returns the username of
a qualifying candidate whose score — scoreOf, that is 4 times clamped swing
recency plus 1.5 times the clamped facing tie-breaker plus the closeness
1/(1+d²) — is maximal among all qualifying candidates. -/
theorem C5_attribution_scorer (pp : Vec3R) (now : ℝ) (sw : ℕ → Option ℝ)
    (ps : List PlayerObs) :
    ((∀ p ∈ ps, ¬ Qualifies pp now sw p) →
      pickOwnerForPearl pp now sw ps = "unknown")
    ∧ ((∃ p ∈ ps, Qualifies pp now sw p) →
        ∃ p ∈ ps, ∃ e t, p.ent = some e ∧ sw e.id = some t
            ∧ playerDistSq e.pos pp ≤ CANDIDATE_RADIUS * CANDIDATE_RADIUS
            ∧ now - t ≤ SWING_WINDOW_MS
            ∧ pickOwnerForPearl pp now sw ps = p.username
            ∧ ∀ q ∈ ps, ∀ e2 t2, q.ent = some e2 → sw e2.id = some t2 →
                playerDistSq e2.pos pp
                  ≤ CANDIDATE_RADIUS * CANDIDATE_RADIUS →
                now - t2 ≤ SWING_WINDOW_MS →
                scoreOf pp now t2 e2 ≤ scoreOf pp now t e) := by
  constructor
  · intro h
    unfold pickOwnerForPearl
    rw [pickAux_none_of_no_qual pp now sw ps none h]
  · intro hex
    obtain ⟨hprov, hdom⟩ := pickAux_spec pp now sw ps none
    rcases hprov with hl | ⟨p, hp, e, t, h1, h2, h3, h4, h5⟩
    · exact absurd hl (pickAux_qual_ne_none pp now sw ps none hex)
    · obtain ⟨hd1, -⟩ := hdom (scoreOf pp now t e) p.username h5
      exact ⟨p, hp, e, t, h1, h2, h3, h4,
        by unfold pickOwnerForPearl; rw [h5], hd1⟩

/-- Concrete player entity one block from the pearl, looking along the
negative z axis, entity id 5. -/
def cxEnt : EntObs := ⟨5, ⟨1, 0, 0⟩, 0, 0⟩

/-- Concrete visible player for the C5 witness. -/
def cxPlayer : PlayerObs := ⟨"Alice", some cxEnt⟩

/-- Swing map for the C5 witness: entity 5 swung at time 90. -/
def cxSwings : ℕ → Option ℝ := fun i => if i = 5 then some 90 else none

/-- Witness for C5_attribution_scorer: a single qualifying player (one block
away, swing 10 ms old) is selected as the owner. -/
theorem C5_attribution_scorer_witness :
    pickOwnerForPearl ⟨0, 0, 0⟩ 100 cxSwings [cxPlayer] = "Alice" := by
  obtain ⟨p, hp, e, t, -, -, -, -, hres, -⟩ :=
    (C5_attribution_scorer ⟨0, 0, 0⟩ 100 cxSwings [cxPlayer]).2
      ⟨cxPlayer, List.mem_cons_self _ _,
        ⟨cxEnt, rfl,
          by norm_num [playerDistSq, cxEnt, CANDIDATE_RADIUS],
          90, rfl,
          by norm_num [SWING_WINDOW_MS]⟩⟩
  rw [List.mem_singleton] at hp
  subst hp
  exact hres

end Stasinetic
